import Mathlib

/-! Shallow embedding of the terminfo backport script (terminfo-backport.py) of the
stipple repository.  Byte strings are modelled as lists of natural numbers (each the
value of one byte); external subprocesses are modelled through environment records
supplying their captured output.  The regular-expression substitution performed by
`patch_shorts` is embedded as an explicit left-to-right scan (`subFuel`) whose single
match attempt (`tryMatch`) follows the pattern `TERMINFO_INTEGER_PATTERN`, namely
`\b pairs\# (0[Xx][0-9A-Fa-f]+ | 0[0-7]+ | [1-9][0-9]*)` with leftmost,
first-alternative, greedy semantics.  The word-boundary assertion is tracked by a
boolean recording whether the byte preceding the current position is a word byte;
after a replacement the scan resumes after the matched region of the original input,
whose final byte is always a digit byte, hence a word byte. -/

namespace TerminfoBackport

/-- Bytes of the literal `pairs#` that starts every pattern match. -/
def PAIRS_HASH : List Nat := [112, 97, 105, 114, 115, 35]

/-- Bytes of the replacement digits `32767`. -/
def DIGITS_32767 : List Nat := [51, 50, 55, 54, 55]

/-- Bytes of `pairs#32767`, the text substituted for an overflowing assignment. -/
def PAIRS_CLAMPED : List Nat := PAIRS_HASH ++ DIGITS_32767

/-- Bytes of `ncurses `, the product marker checked at the start of probe output
(`NCURSES_VERSION_PREFIX` in the source). -/
def NCURSES_VERSION_TAG : List Nat := [110, 99, 117, 114, 115, 101, 115, 32]

/-- Bytes of `ncurses 5.7.20081102`, the expected stock tic version string. -/
def NCURSES_STOCK_EXPECTED_VERSION : List Nat :=
  NCURSES_VERSION_TAG ++ [53, 46, 55, 46, 50, 48, 48, 56, 49, 49, 48, 50]

/-- Bytes of `infocmp`, the fallback candidate name. -/
def INFOCMP_FALLBACK : List Nat := [105, 110, 102, 111, 99, 109, 112]

/-- Bytes of `/bin/infocmp`, the suffix a package file must have to be a candidate. -/
def INFOCMP_SUFFIX : List Nat := [47, 98, 105, 110, 47, 105, 110, 102, 111, 99, 109, 112]

/-- Word bytes in the sense of the regex class `\w` over ASCII input:
digits, upper case letters, lower case letters and underscore. -/
def isWordByte (b : Nat) : Bool :=
  decide ((48 ≤ b ∧ b ≤ 57) ∨ (65 ≤ b ∧ b ≤ 90) ∨ (97 ≤ b ∧ b ≤ 122) ∨ b = 95)

/-- Decimal digit bytes, the regex class `[0-9]`. -/
def isDigitByte (b : Nat) : Bool := decide (48 ≤ b ∧ b ≤ 57)

/-- Hexadecimal digit bytes, the regex class `[0-9A-Fa-f]`. -/
def isHexByte (b : Nat) : Bool :=
  decide ((48 ≤ b ∧ b ≤ 57) ∨ (65 ≤ b ∧ b ≤ 70) ∨ (97 ≤ b ∧ b ≤ 102))

/-- Octal digit bytes, the regex class `[0-7]`. -/
def isOctByte (b : Nat) : Bool := decide (48 ≤ b ∧ b ≤ 55)

/-- Nonzero decimal digit bytes, the regex class `[1-9]`. -/
def isPosDigitByte (b : Nat) : Bool := decide (49 ≤ b ∧ b ≤ 57)

/-- Numeric value of a (hexadecimal) digit byte. -/
def pyDigitVal (b : Nat) : Nat :=
  if b ≤ 57 then b - 48 else if b ≤ 70 then b - 55 else b - 87

/-- Digit class accepted by `pyInt` for a given base. -/
def baseDigitOk (base b : Nat) : Bool :=
  if base == 16 then isHexByte b else if base == 8 then isOctByte b else isDigitByte b

/-- Model of the Python call `int(s, base)` as used by `clamp_terminfo_number`:
digits of the given base only, with `none` where the call raises `ValueError`.
The sign, whitespace and underscore forms accepted by `int` are modelled as
unparsable here; the substitution callback only ever passes regex-matched
digit strings, for which this model is exact.  (The version-probe path parses
arbitrary text and uses the full model `pyIntText` instead.) -/
def pyInt (base : Nat) (s : List Nat) : Option Nat :=
  if s.isEmpty || !(s.all (baseDigitOk base)) then none
  else some (s.foldl (fun acc b => acc * base + pyDigitVal b) 0)

/-- Integer decoding step of `clamp_terminfo_number` (source lines 140 to 148):
hexadecimal after a `0x` or `0X` marker, octal after a leading `0`, decimal
otherwise; `none` models the `ValueError` branch. -/
def terminfo_int_value (int_str : List Nat) : Option Nat :=
  if [48, 120].isPrefixOf int_str || [48, 88].isPrefixOf int_str then
    pyInt 16 (int_str.drop 2)
  else if [48].isPrefixOf int_str then
    pyInt 8 int_str
  else
    pyInt 10 int_str

/-- Model of `key_value.partition(b"#")` restricted to what the caller checks:
`some (key, int_str)` splits at the first `#` byte (35), `none` models the case
where no `#` occurs, in which the source returns the input unchanged. -/
def splitAtHash : List Nat → Option (List Nat × List Nat)
  | [] => none
  | b :: rest =>
    if b == 35 then some ([], rest)
    else
      match splitAtHash rest with
      | none => none
      | some (k, v) => some (b :: k, v)

/-- Embedding of `clamp_terminfo_number` (source lines 135 to 153): split a
`key#value` byte string at the first `#`, decode the value, and rewrite the
whole assignment to `key#32767` exactly when the decoded value exceeds 32767. -/
def clamp_terminfo_number (key_value : List Nat) : List Nat :=
  match splitAtHash key_value with
  | none => key_value
  | some (key, int_str) =>
    match terminfo_int_value int_str with
    | none => key_value
    | some int_value =>
      if 32767 < int_value then key ++ (35 :: DIGITS_32767) else key_value

/-- Match attempt for the integer-literal part of `TERMINFO_INTEGER_PATTERN`,
the alternation `0[Xx][0-9A-Fa-f]+ | 0[0-7]+ | [1-9][0-9]*` with the usual
first-alternative and greedy semantics (nothing follows the alternation in the
pattern, so each repetition takes its maximal run).  Returns the matched literal
and the remaining input. -/
def matchInt : List Nat → Option (List Nat × List Nat)
  | [] => none
  | b :: rest =>
    if b == 48 then
      match rest with
      | [] => none
      | c :: rest2 =>
        if c == 120 || c == 88 then
          if (rest2.takeWhile isHexByte).isEmpty then none
          else some (48 :: c :: rest2.takeWhile isHexByte, rest2.dropWhile isHexByte)
        else if isOctByte c then
          some (48 :: (c :: rest2).takeWhile isOctByte, (c :: rest2).dropWhile isOctByte)
        else none
    else if isPosDigitByte b then
      some (b :: rest.takeWhile isDigitByte, rest.dropWhile isDigitByte)
    else none

/-- One attempt to match `TERMINFO_INTEGER_PATTERN` at the current position.
`pw` records whether the previous byte of the scanned string is a word byte; the
pattern starts with `\b` followed by the word byte `p`, so the boundary holds
exactly when `pw` is false. -/
def tryMatch (pw : Bool) (l : List Nat) : Option (List Nat × List Nat) :=
  if pw then none
  else if PAIRS_HASH.isPrefixOf l then
    match matchInt (l.drop 6) with
    | some (ds, r) => some (PAIRS_HASH ++ ds, r)
    | none => none
  else none

/-- Fueled left-to-right substitution scan of `re.sub`: at each position try the
pattern; on a match emit the callback result (`clamp_terminfo_number`) and resume
after the matched bytes (whose final byte is a digit, hence a word byte); otherwise
emit the byte unchanged.  The fuel only serves termination; `patch_shorts` always
supplies enough. -/
def subFuel : Nat → Bool → List Nat → List Nat
  | 0, _, l => l
  | n + 1, pw, l =>
    match tryMatch pw l with
    | some (m, r) => clamp_terminfo_number m ++ subFuel n true r
    | none =>
      match l with
      | [] => []
      | b :: rest => b :: subFuel n (isWordByte b) rest

/-- Scan of a byte string with exactly enough fuel, starting from a given
word-boundary state. -/
def subRun (pw : Bool) (l : List Nat) : List Nat := subFuel l.length pw l

/-- Embedding of `patch_shorts` (source lines 170 to 173):
`TERMINFO_INTEGER_PATTERN.sub(lambda m: clamp_terminfo_number(m[0]), terminfo_src)`.
The scan starts at the beginning of the input, where the word boundary holds. -/
def patch_shorts (terminfo_src : List Nat) : List Nat := subRun false terminfo_src

/-- Condition that the head of `r`, if any, fails the byte class `p`; this is what
stops a greedy repetition over `p` right before `r`. -/
def headFails (p : Nat → Bool) (r : List Nat) : Bool :=
  match r with
  | [] => true
  | c :: _ => !p c

/-- Shape of a maximal integer literal of the pattern when followed by `r`:
one alternative of the alternation, with the following byte unable to extend it. -/
def litShape (lit r : List Nat) : Bool :=
  match lit with
  | [] => false
  | b :: rest =>
    if b == 48 then
      match rest with
      | [] => false
      | c :: hd =>
        if c == 120 || c == 88 then
          !hd.isEmpty && hd.all isHexByte && headFails isHexByte r
        else
          isOctByte c && hd.all isOctByte && headFails isOctByte r
    else
      isPosDigitByte b && rest.all isDigitByte && headFails isDigitByte r

/-- Fueled scan computing whether every pattern match found during the
substitution pass is followed by a non-digit byte (or by the end of input).
This is the side condition under which the patch is idempotent. -/
def goodScanF : Nat → Bool → List Nat → Bool
  | 0, _, _ => true
  | n + 1, pw, l =>
    match tryMatch pw l with
    | some (_, r) => headFails isDigitByte r && goodScanF n true r
    | none =>
      match l with
      | [] => true
      | b :: rest => goodScanF n (isWordByte b) rest

/-- Scan of `goodScanF` with exactly enough fuel. -/
def goodRun (pw : Bool) (l : List Nat) : Bool := goodScanF l.length pw l

/-- Input condition: no match of the numeric-capability pattern is immediately
followed by a decimal digit byte. -/
def goodInput (x : List Nat) : Bool := goodRun false x

/-- One piece of the scan decomposition of an input: a byte outside every match,
or the full byte string of one match. -/
inductive Piece
  | raw (b : Nat)
  | hit (m : List Nat)
deriving DecidableEq

/-- Original bytes of a piece. -/
def pieceOrig : Piece → List Nat
  | Piece.raw b => [b]
  | Piece.hit m => m

/-- Output bytes of a piece after the substitution callback. -/
def pieceOut : Piece → List Nat
  | Piece.raw b => [b]
  | Piece.hit m => clamp_terminfo_number m

/-- Fueled scan decomposition: the same traversal as `subFuel`, recording each
unmatched byte and each match instead of building the output. -/
def scanF : Nat → Bool → List Nat → List Piece
  | 0, _, l => l.map Piece.raw
  | n + 1, pw, l =>
    match tryMatch pw l with
    | some (m, r) => Piece.hit m :: scanF n true r
    | none =>
      match l with
      | [] => []
      | b :: rest => Piece.raw b :: scanF n (isWordByte b) rest

/-- Scan decomposition of an input byte string. -/
def scanPieces (x : List Nat) : List Piece := scanF x.length false x

/-- Python whitespace bytes stripped by `bytes.rstrip()`. -/
def isPySpace (b : Nat) : Bool :=
  decide (b = 32 ∨ b = 9 ∨ b = 10 ∨ b = 13 ∨ b = 11 ∨ b = 12)

/-- Model of `bytes.rstrip()`: drop trailing ASCII whitespace. -/
def pyRstrip (l : List Nat) : List Nat := (l.reverse.dropWhile isPySpace).reverse

/-- Python tuple ordering on integer sequences: `tupLt a b` holds exactly when
`a < b` as Python tuples, i.e. lexicographically with a strict prefix smaller
than any of its extensions.  Components are integers, as produced by the Python
call `int(n)`, which can also yield negative values. -/
def tupLt : List Int → List Int → Bool
  | _, [] => false
  | [], _ :: _ => true
  | a :: as, b :: bs => decide (a < b) || (a == b && tupLt as bs)

/-- ASCII characters treated as whitespace by Python `str` parsing (`int()`
skips them around a decimal literal): the six `bytes` whitespace characters
plus the separator control characters 28 to 31, which `str.isspace` accepts. -/
def isPyStrSpace (b : Nat) : Bool :=
  decide (b = 32 ∨ b = 9 ∨ b = 10 ∨ b = 13 ∨ b = 11 ∨ b = 12 ∨
    b = 28 ∨ b = 29 ∨ b = 30 ∨ b = 31)

/-- Strip of leading and trailing Python whitespace around a decimal literal. -/
def pyStrStrip (s : List Nat) : List Nat :=
  ((s.dropWhile isPyStrSpace).reverse.dropWhile isPyStrSpace).reverse

/-- Accumulating parse of the tail of a Python decimal digit part: further
digits, with single underscores allowed only between two digits. -/
def digitPartGo : Nat → List Nat → Option Nat
  | acc, [] => some acc
  | acc, c :: rest =>
    if isDigitByte c then digitPartGo (acc * 10 + (c - 48)) rest
    else if c == 95 then
      match rest with
      | [] => none
      | d2 :: rest2 =>
        if isDigitByte d2 then digitPartGo (acc * 10 + (d2 - 48)) rest2 else none
    else none

/-- Parse of a Python decimal digit part: one or more digits, with single
underscores allowed only between two digits. -/
def digitPartVal : List Nat → Option Nat
  | [] => none
  | d :: rest => if isDigitByte d then digitPartGo (d - 48) rest else none

/-- Model of the Python call `int(s)` on an already-decoded ASCII string:
surrounding whitespace is skipped, one optional sign is accepted, and the
digit part may contain single underscores between digits; everything else
raises `ValueError`, modelled as `none`.  (A byte above 127 makes the whole
decode raise instead, and also fails this parse, so the observable uncaught
error agrees.) -/
def pyIntText (s : List Nat) : Option Int :=
  match pyStrStrip s with
  | [] => none
  | c :: rest =>
    if c == 43 then (digitPartVal rest).map (fun n => (n : Int))
    else if c == 45 then (digitPartVal rest).map (fun n => -(n : Int))
    else (digitPartVal (c :: rest)).map (fun n => (n : Int))

/-- Model of `tuple(int(n) for n in version_n.decode("ascii").split("."))`:
split the version bytes on `.` (byte 46) and parse every component with the
full `int()` model; `none` models the uncaught `ValueError` (or decode error)
raised when some component does not parse. -/
def parseVersionKey (version_n : List Nat) : Option (List Int) :=
  (version_n.splitOn 46).mapM pyIntText

/-- Environment of the discovery phase: the file paths yielded by the MacPorts
and Homebrew backends (each already past its backend-specific parsing, and empty
whenever the backend process failed), and the captured stdout of each version
probe `exe -V`, with `none` when launching or running the probe raises
`subprocess.SubprocessError` or `OSError`. -/
structure DiscEnv where
  macports_files : List (List Nat)
  homebrew_files : List (List Nat)
  probe : List Nat → Option (List Nat)

/-- Candidate assembly of `find_infocmp` (source lines 90 to 101): backend files
ending in `/bin/infocmp`, or the single fallback name `infocmp` when no backend
yielded any. -/
def candidatesOf (env : DiscEnv) : List (List Nat) :=
  let cands :=
    (env.macports_files ++ env.homebrew_files).filter
      (fun file => INFOCMP_SUFFIX.isSuffixOf file)
  if cands.isEmpty then [INFOCMP_FALLBACK] else cands

/-- One iteration of the selection loop of `find_infocmp` (source lines 106 to
126) over the running best `(best_exe, best_version_key)`: a probe failure is
skipped, output without the `ncurses ` marker is skipped, a version text that
fails integer parsing raises an uncaught `ValueError` (modelled as
`Except.error`), and otherwise the candidate replaces the best exactly when its
key is strictly greater under tuple ordering. -/
def selStep (env : DiscEnv) (best : Option (List Nat × List Int)) (exe : List Nat) :
    Except Unit (Option (List Nat × List Int)) :=
  match env.probe exe with
  | none => Except.ok best
  | some out =>
    let version_str := pyRstrip out
    if NCURSES_VERSION_TAG.isPrefixOf version_str then
      match parseVersionKey (version_str.drop NCURSES_VERSION_TAG.length) with
      | none => Except.error ()
      | some version_key =>
        match best with
        | none => Except.ok (some (exe, version_key))
        | some (best_exe, best_version_key) =>
          if tupLt best_version_key version_key then Except.ok (some (exe, version_key))
          else Except.ok (some (best_exe, best_version_key))
    else Except.ok best

/-- Embedding of `find_infocmp` (source lines 89 to 132): fold the selection
step over the candidate list and return the path of the best viable candidate,
`none` when no candidate was viable, or an error when a version parse raised. -/
def find_infocmp (env : DiscEnv) : Except Unit (Option (List Nat)) :=
  ((candidatesOf env).foldlM (selStep env) none).map (fun best => best.map Prod.fst)

/-- Embedding of `dir_in_path` (source lines 176 to 189) on the byte-string
branch taken by `main`: a missing environment variable (`None`) is never a hit,
otherwise the variable is split on the path separator `:` (byte 58) and the
directory must be one of the entries. -/
def dir_in_path (dir : List Nat) (path_list : Option (List Nat)) : Bool :=
  match path_list with
  | none => false
  | some pl => (pl.splitOn 58).contains dir

/-- Steps of the orchestrator observable in its trace: exporting the terminfo
source, patching it, compiling it, and printing the search-path advisory. -/
inductive Ev
  | exportStep
  | patchStep
  | compileStep
  | advisoryStep
deriving DecidableEq

/-- Environment of `main`: captured stdout of the stock `tic -V` probe, the
discovery environment, the stdout of `infocmp -x tmux-256color`, the user
terminfo directory, and the value of `TERMINFO_DIRS` (with `none` when unset).
Scratch-file writing and the final `tic` compile are modelled as succeeding;
the claims under verification never exercise their failure. -/
structure MainEnv where
  tic_probe : List Nat
  disc : DiscEnv
  infocmp_out : List Nat
  out_dir : List Nat
  terminfo_dirs : Option (List Nat)

/-- Embedding of `main` (source lines 192 to 258): verify the stock tic version
fingerprint, select a decompiler, then export, patch, compile, and check path
visibility.  The result is the process exit code paired with the trace of steps
reached; `Except.error` models an uncaught exception from the selector. -/
def main (env : MainEnv) : Except Unit (Nat × List Ev) :=
  let stock_tic_version := pyRstrip env.tic_probe
  if stock_tic_version ≠ NCURSES_STOCK_EXPECTED_VERSION then Except.ok (1, [])
  else
    match find_infocmp env.disc with
    | Except.error e => Except.error e
    | Except.ok none => Except.ok (1, [])
    | Except.ok (some _) =>
      let _term_src := patch_shorts env.infocmp_out
      let evs := [Ev.exportStep, Ev.patchStep, Ev.compileStep]
      if dir_in_path env.out_dir env.terminfo_dirs then Except.ok (0, evs)
      else Except.ok (0, evs ++ [Ev.advisoryStep])

/-- Ranking two integer sequences by comparing their components left to right,
as the specification words it: some position holds a smaller component on the
left while all earlier components agree. -/
def specLexLt (a b : List Int) : Prop :=
  ∃ i v w, a.take i = b.take i ∧ a[i]? = some v ∧ b[i]? = some w ∧ v < w

/-! Helper lemmas about greedy repetitions. -/

theorem all_takeWhile (p : Nat → Bool) (l : List Nat) : (l.takeWhile p).all p = true := by
  induction l with
  | nil => rfl
  | cons a l ih =>
    by_cases h : p a
    · simp [List.takeWhile_cons, h, ih]
    · simp [List.takeWhile_cons, h]

theorem headFails_dropWhile (p : Nat → Bool) (l : List Nat) :
    headFails p (l.dropWhile p) = true := by
  induction l with
  | nil => rfl
  | cons a l ih =>
    by_cases h : p a
    · simpa [List.dropWhile_cons, h] using ih
    · simp [List.dropWhile_cons, h, headFails]

theorem takeWhile_append_eq {p : Nat → Bool} {ds t : List Nat}
    (hall : ds.all p = true) (ht : headFails p t = true) :
    (ds ++ t).takeWhile p = ds := by
  induction ds with
  | nil =>
    cases t with
    | nil => rfl
    | cons c t =>
      simp only [headFails, Bool.not_eq_true'] at ht
      simp [List.takeWhile_cons, ht]
  | cons a ds ih =>
    simp only [List.all_cons, Bool.and_eq_true] at hall
    simp [List.takeWhile_cons, hall.1, ih hall.2]

theorem dropWhile_append_eq {p : Nat → Bool} {ds t : List Nat}
    (hall : ds.all p = true) (ht : headFails p t = true) :
    (ds ++ t).dropWhile p = t := by
  induction ds with
  | nil =>
    cases t with
    | nil => rfl
    | cons c t =>
      simp only [headFails, Bool.not_eq_true'] at ht
      simp [List.dropWhile_cons, ht]
  | cons a ds ih =>
    simp only [List.all_cons, Bool.and_eq_true] at hall
    simp [List.dropWhile_cons, hall.1, ih hall.2]

theorem headFails_congr {p : Nat → Bool} {r s : List Nat} (h : r.head? = s.head?) :
    headFails p r = headFails p s := by
  cases r with
  | nil => cases s with
    | nil => rfl
    | cons c s => simp at h
  | cons c r => cases s with
    | nil => simp at h
    | cons d s =>
      simp only [List.head?_cons, Option.some.injEq] at h
      simp [headFails, h]

/-! Characterization of one integer-literal match. -/

theorem litShape_cons48 (c : Nat) (hd r : List Nat) :
    litShape (48 :: c :: hd) r =
      if c == 120 || c == 88 then
        !hd.isEmpty && hd.all isHexByte && headFails isHexByte r
      else
        isOctByte c && hd.all isOctByte && headFails isOctByte r := rfl

theorem litShape_cons_ne48 {b : Nat} (hb : ¬((b == 48) = true)) (rest r : List Nat) :
    litShape (b :: rest) r =
      (isPosDigitByte b && rest.all isDigitByte && headFails isDigitByte r) := by
  simp only [litShape]
  rw [if_neg hb]

theorem matchInt_some_shape {rest ds r : List Nat} (h : matchInt rest = some (ds, r)) :
    rest = ds ++ r ∧ litShape ds r = true := by
  cases rest with
  | nil => simp [matchInt] at h
  | cons b rest1 =>
    by_cases hb : b = 48
    · subst hb
      cases rest1 with
      | nil => simp [matchInt] at h
      | cons c rest2 =>
        simp only [matchInt, beq_self_eq_true, if_true] at h
        by_cases hcx : (c == 120 || c == 88) = true
        · rw [if_pos hcx] at h
          by_cases hem : (rest2.takeWhile isHexByte).isEmpty = true
          · rw [if_pos hem] at h
            simp at h
          · rw [if_neg hem] at h
            simp only [Option.some.injEq, Prod.mk.injEq] at h
            obtain ⟨hds, hr⟩ := h
            subst hds
            subst hr
            refine ⟨by simp [List.takeWhile_append_dropWhile], ?_⟩
            rw [litShape_cons48, if_pos hcx]
            simp only [Bool.and_eq_true, Bool.not_eq_true']
            refine ⟨⟨?_, all_takeWhile _ _⟩, headFails_dropWhile _ _⟩
            simpa using hem
        · rw [if_neg hcx] at h
          by_cases hoc : isOctByte c = true
          · rw [if_pos hoc] at h
            simp only [Option.some.injEq, Prod.mk.injEq] at h
            obtain ⟨hds, hr⟩ := h
            subst hds
            subst hr
            refine ⟨by simp [List.takeWhile_append_dropWhile], ?_⟩
            rw [List.takeWhile_cons, if_pos hoc]
            rw [litShape_cons48, if_neg hcx]
            simp only [Bool.and_eq_true]
            exact ⟨⟨hoc, all_takeWhile _ _⟩, headFails_dropWhile _ _⟩
          · rw [if_neg hoc] at h
            simp at h
    · have hb2 : ¬((b == 48) = true) := by simpa using hb
      simp only [matchInt] at h
      rw [if_neg hb2] at h
      by_cases hpd : isPosDigitByte b = true
      · rw [if_pos hpd] at h
        simp only [Option.some.injEq, Prod.mk.injEq] at h
        obtain ⟨hds, hr⟩ := h
        subst hds
        subst hr
        refine ⟨by simp [List.takeWhile_append_dropWhile], ?_⟩
        rw [litShape_cons_ne48 hb2]
        simp only [Bool.and_eq_true]
        exact ⟨⟨hpd, all_takeWhile _ _⟩, headFails_dropWhile _ _⟩
      · rw [if_neg hpd] at h
        simp at h

theorem litShape_matchInt {ds t : List Nat} (h : litShape ds t = true) :
    matchInt (ds ++ t) = some (ds, t) := by
  cases ds with
  | nil => simp [litShape] at h
  | cons b rest =>
    by_cases hb : b = 48
    · subst hb
      cases rest with
      | nil => simp [litShape] at h
      | cons c hd =>
        rw [litShape_cons48] at h
        by_cases hcx : (c == 120 || c == 88) = true
        · rw [if_pos hcx] at h
          simp only [Bool.and_eq_true, Bool.not_eq_true'] at h
          obtain ⟨⟨hne, hall⟩, hhead⟩ := h
          simp only [List.cons_append, matchInt, beq_self_eq_true, if_true]
          rw [if_pos hcx]
          rw [takeWhile_append_eq hall hhead, dropWhile_append_eq hall hhead]
          simp [hne]
        · rw [if_neg hcx] at h
          simp only [Bool.and_eq_true] at h
          obtain ⟨⟨hoc, hall⟩, hhead⟩ := h
          simp only [List.cons_append, matchInt, beq_self_eq_true, if_true]
          rw [if_neg hcx, if_pos hoc]
          have e1 : c :: (hd ++ t) = (c :: hd) ++ t := by simp
          have hall2 : ((c :: hd) : List Nat).all isOctByte = true := by
            simp only [List.all_cons, Bool.and_eq_true]
            exact ⟨hoc, hall⟩
          rw [e1, takeWhile_append_eq hall2 hhead, dropWhile_append_eq hall2 hhead]
    · have hb2 : ¬((b == 48) = true) := by simpa using hb
      rw [litShape_cons_ne48 hb2] at h
      simp only [Bool.and_eq_true] at h
      obtain ⟨⟨hpd, hall⟩, hhead⟩ := h
      simp only [List.cons_append, matchInt]
      rw [if_neg hb2, if_pos hpd]
      rw [takeWhile_append_eq hall hhead, dropWhile_append_eq hall hhead]

theorem litShape_ne_nil {ds r : List Nat} (h : litShape ds r = true) : ds ≠ [] := by
  intro he
  subst he
  simp [litShape] at h

theorem litShape_head_congr {ds r s : List Nat} (hh : r.head? = s.head?) :
    litShape ds r = litShape ds s := by
  cases ds with
  | nil => rfl
  | cons b rest =>
    by_cases hb : b = 48
    · subst hb
      cases rest with
      | nil => rfl
      | cons c hd =>
        rw [litShape_cons48, litShape_cons48]
        by_cases hcx : (c == 120 || c == 88) = true
        · rw [if_pos hcx, if_pos hcx, headFails_congr hh]
        · rw [if_neg hcx, if_neg hcx, headFails_congr hh]
    · have hb2 : ¬((b == 48) = true) := by simpa using hb
      rw [litShape_cons_ne48 hb2, litShape_cons_ne48 hb2, headFails_congr hh]

/-! Characterization of one pattern-match attempt. -/

theorem isPrefixOf_exists : ∀ l1 l2 : List Nat,
    l1.isPrefixOf l2 = true ↔ ∃ t, l2 = l1 ++ t := by
  intro l1
  induction l1 with
  | nil =>
    intro l2
    simp [List.isPrefixOf]
  | cons a as ih =>
    intro l2
    cases l2 with
    | nil =>
      simp [List.isPrefixOf]
    | cons b bs =>
      simp only [List.isPrefixOf, Bool.and_eq_true, beq_iff_eq, List.cons_append,
        List.cons.injEq]
      constructor
      · rintro ⟨hab, h⟩
        obtain ⟨t, ht⟩ := (ih bs).mp h
        exact ⟨t, hab.symm, ht⟩
      · rintro ⟨t, hab, ht⟩
        exact ⟨hab.symm, (ih bs).mpr ⟨t, ht⟩⟩

theorem tryMatch_true (l : List Nat) : tryMatch true l = none := rfl

theorem tryMatch_nil (pw : Bool) : tryMatch pw [] = none := by
  cases pw <;> rfl

theorem tryMatch_some_elim {pw : Bool} {l m r : List Nat}
    (h : tryMatch pw l = some (m, r)) :
    pw = false ∧ ∃ ds, m = PAIRS_HASH ++ ds ∧ l = PAIRS_HASH ++ ds ++ r ∧
      litShape ds r = true := by
  cases pw with
  | true => simp [tryMatch] at h
  | false =>
    refine ⟨rfl, ?_⟩
    simp only [tryMatch, if_false, Bool.false_eq_true] at h
    by_cases hpre : PAIRS_HASH.isPrefixOf l = true
    · rw [if_pos hpre] at h
      obtain ⟨t, ht⟩ : ∃ t, l = PAIRS_HASH ++ t := (isPrefixOf_exists _ _).mp hpre
      subst ht
      have hdrop : (PAIRS_HASH ++ t).drop 6 = t := by
        have : (PAIRS_HASH : List Nat).length = 6 := rfl
        rw [show (6 : Nat) = (PAIRS_HASH : List Nat).length from rfl, List.drop_left]
      rw [hdrop] at h
      cases hmi : matchInt t with
      | none => rw [hmi] at h; simp at h
      | some p =>
        obtain ⟨ds, r0⟩ := p
        rw [hmi] at h
        simp only [Option.some.injEq, Prod.mk.injEq] at h
        obtain ⟨hm, hr⟩ := h
        subst hm
        subst hr
        obtain ⟨happ, hshape⟩ := matchInt_some_shape hmi
        subst happ
        exact ⟨ds, rfl, by simp, hshape⟩
    · rw [if_neg hpre] at h
      simp at h

theorem tryMatch_intro {ds t : List Nat} (h : litShape ds t = true) :
    tryMatch false (PAIRS_HASH ++ ds ++ t) = some (PAIRS_HASH ++ ds, t) := by
  have hpre : PAIRS_HASH.isPrefixOf (PAIRS_HASH ++ ds ++ t) = true := by
    rw [List.append_assoc]
    exact (isPrefixOf_exists _ _).mpr ⟨ds ++ t, rfl⟩
  simp only [tryMatch, if_false, Bool.false_eq_true]
  rw [if_pos hpre]
  have hdrop : (PAIRS_HASH ++ ds ++ t).drop 6 = ds ++ t := by
    rw [List.append_assoc]
    rw [show (6 : Nat) = (PAIRS_HASH : List Nat).length from rfl, List.drop_left]
  rw [hdrop, litShape_matchInt h]

/-! Computation of the clamp callback on a matched assignment. -/

theorem splitAtHash_pairs (ds : List Nat) :
    splitAtHash (PAIRS_HASH ++ ds) = some ([112, 97, 105, 114, 115], ds) := rfl

theorem clamp_pairs_eq (ds : List Nat) :
    clamp_terminfo_number (PAIRS_HASH ++ ds) =
      (terminfo_int_value ds).elim (PAIRS_HASH ++ ds)
        (fun v => if 32767 < v then PAIRS_CLAMPED else PAIRS_HASH ++ ds) := by
  have hred : clamp_terminfo_number (PAIRS_HASH ++ ds) =
      (match terminfo_int_value ds with
       | none => PAIRS_HASH ++ ds
       | some int_value =>
         if 32767 < int_value then [112, 97, 105, 114, 115] ++ 35 :: DIGITS_32767
         else PAIRS_HASH ++ ds) := rfl
  rw [hred]
  cases h : terminfo_int_value ds with
  | none => rfl
  | some v =>
    simp only [Option.elim]
    by_cases h2 : 32767 < v
    · rw [if_pos h2, if_pos h2]
      rfl
    · rw [if_neg h2, if_neg h2]

theorem pyInt_isSome {base : Nat} {s : List Nat} (h1 : s.isEmpty = false)
    (h2 : s.all (baseDigitOk base) = true) : ∃ v, pyInt base s = some v := by
  have : pyInt base s = some (s.foldl (fun acc b => acc * base + pyDigitVal b) 0) := by
    simp [pyInt, h1, h2]
  exact ⟨_, this⟩

theorem terminfo_int_value_of_litShape {ds r : List Nat} (h : litShape ds r = true) :
    ∃ v, terminfo_int_value ds = some v := by
  have hhex : baseDigitOk 16 = isHexByte := rfl
  have hoct8 : baseDigitOk 8 = isOctByte := rfl
  have hdec : baseDigitOk 10 = isDigitByte := rfl
  cases ds with
  | nil => simp [litShape] at h
  | cons b rest =>
    by_cases hb : b = 48
    · subst hb
      cases rest with
      | nil => simp [litShape] at h
      | cons c hd =>
        rw [litShape_cons48] at h
        by_cases hcx : (c == 120 || c == 88) = true
        · rw [if_pos hcx] at h
          simp only [Bool.and_eq_true, Bool.not_eq_true'] at h
          obtain ⟨⟨hne, hall⟩, _⟩ := h
          have hc : c = 120 ∨ c = 88 := by
            rcases Bool.or_eq_true_iff.mp hcx with h1 | h1
            · exact Or.inl (by simpa using h1)
            · exact Or.inr (by simpa using h1)
          have hcond : ([48, 120].isPrefixOf (48 :: c :: hd) ||
              [48, 88].isPrefixOf (48 :: c :: hd)) = true := by
            rcases hc with h1 | h1 <;> subst h1 <;> simp [List.isPrefixOf]
          unfold terminfo_int_value
          rw [if_pos hcond]
          have hdrop : ((48 : Nat) :: c :: hd).drop 2 = hd := rfl
          rw [hdrop]
          exact pyInt_isSome hne (by rw [hhex]; exact hall)
        · rw [if_neg hcx] at h
          simp only [Bool.and_eq_true] at h
          obtain ⟨⟨hoc, hall⟩, _⟩ := h
          have hc55 : 48 ≤ c ∧ c ≤ 55 := by simpa [isOctByte] using hoc
          have hne120 : (120 : Nat) ≠ c := by omega
          have hne88 : (88 : Nat) ≠ c := by omega
          have hcond : ([48, 120].isPrefixOf (48 :: c :: hd) ||
              [48, 88].isPrefixOf (48 :: c :: hd)) = false := by
            simp [List.isPrefixOf]
            omega
          have hcond2 : ([48].isPrefixOf (48 :: c :: hd)) = true := by
            simp [List.isPrefixOf]
          have hNcond : ¬(([48, 120].isPrefixOf (48 :: c :: hd) ||
              [48, 88].isPrefixOf (48 :: c :: hd)) = true) := by
            intro hx
            rw [hcond] at hx
            exact Bool.false_ne_true hx
          unfold terminfo_int_value
          rw [if_neg hNcond, if_pos hcond2]
          refine pyInt_isSome rfl ?_
          rw [hoct8]
          simp only [List.all_cons, Bool.and_eq_true]
          exact ⟨by decide, hoc, hall⟩
    · have hb2 : ¬((b == 48) = true) := by simpa using hb
      rw [litShape_cons_ne48 hb2] at h
      simp only [Bool.and_eq_true] at h
      obtain ⟨⟨hpd, hall⟩, _⟩ := h
      have hbr : 49 ≤ b ∧ b ≤ 57 := by simpa [isPosDigitByte] using hpd
      have hne48 : (48 : Nat) ≠ b := by omega
      have hcond : ([48, 120].isPrefixOf (b :: rest) ||
          [48, 88].isPrefixOf (b :: rest)) = false := by
        simp [List.isPrefixOf]
        omega
      have hcond2 : ([48].isPrefixOf (b :: rest)) = false := by
        simp [List.isPrefixOf]
        omega
      unfold terminfo_int_value
      rw [if_neg (by simp [hcond]), if_neg (by simp [hcond2])]
      refine pyInt_isSome rfl ?_
      rw [hdec]
      simp only [List.all_cons, Bool.and_eq_true]
      have hbd : isDigitByte b = true := by
        simp only [isDigitByte, decide_eq_true_eq]
        omega
      exact ⟨hbd, hall⟩

theorem clamp_match_char {pw : Bool} {l m r : List Nat} (h : tryMatch pw l = some (m, r)) :
    ∃ ds v, m = PAIRS_HASH ++ ds ∧ litShape ds r = true ∧
      terminfo_int_value ds = some v ∧
      clamp_terminfo_number m = (if 32767 < v then PAIRS_CLAMPED else m) := by
  obtain ⟨_, ds, hm, hl, hshape⟩ := tryMatch_some_elim h
  obtain ⟨v, hv⟩ := terminfo_int_value_of_litShape hshape
  subst hm
  refine ⟨ds, v, rfl, hshape, hv, ?_⟩
  rw [clamp_pairs_eq, hv]
  rfl

theorem clamp_head {pw : Bool} {l m r : List Nat} (h : tryMatch pw l = some (m, r)) :
    ∃ t2, clamp_terminfo_number m = 112 :: t2 := by
  obtain ⟨ds, v, hm, _, _, hcl⟩ := clamp_match_char h
  rw [hcl]
  by_cases h2 : 32767 < v
  · rw [if_pos h2]
    exact ⟨_, rfl⟩
  · rw [if_neg h2, hm]
    exact ⟨_, rfl⟩

theorem tryMatch_some_length {pw : Bool} {l m r : List Nat}
    (h : tryMatch pw l = some (m, r)) : r.length + 7 ≤ l.length ∧ l = m ++ r := by
  obtain ⟨_, ds, hm, hl, hshape⟩ := tryMatch_some_elim h
  have hne : 1 ≤ ds.length := List.length_pos.mpr (litShape_ne_nil hshape)
  subst hm
  subst hl
  constructor
  · simp only [List.length_append]
    have h6 : (PAIRS_HASH : List Nat).length = 6 := rfl
    omega
  · simp

/-! Fuel irrelevance and unfolding equations for the substitution scan. -/

theorem subFuel_nil (n : Nat) (pw : Bool) : subFuel n pw [] = [] := by
  cases n with
  | zero => rfl
  | succ n => simp [subFuel, tryMatch_nil]

theorem subFuel_succ_none {n : Nat} {pw : Bool} {b : Nat} {rest : List Nat}
    (h : tryMatch pw (b :: rest) = none) :
    subFuel (n + 1) pw (b :: rest) = b :: subFuel n (isWordByte b) rest := by
  simp [subFuel, h]

theorem subFuel_succ_some {n : Nat} {pw : Bool} {l m r : List Nat}
    (h : tryMatch pw l = some (m, r)) :
    subFuel (n + 1) pw l = clamp_terminfo_number m ++ subFuel n true r := by
  simp [subFuel, h]

theorem subFuel_congr : ∀ n m2 : Nat, ∀ pw : Bool, ∀ l : List Nat,
    l.length ≤ n → l.length ≤ m2 → subFuel n pw l = subFuel m2 pw l := by
  intro n
  induction n with
  | zero =>
    intro m2 pw l h1 h2
    have hl : l = [] := List.eq_nil_of_length_eq_zero (Nat.le_zero.mp h1)
    subst hl
    rw [subFuel_nil, subFuel_nil]
  | succ n ih =>
    intro m2 pw l h1 h2
    cases l with
    | nil => rw [subFuel_nil, subFuel_nil]
    | cons b rest =>
      cases m2 with
      | zero => simp at h2
      | succ m0 =>
        cases htm : tryMatch pw (b :: rest) with
        | none =>
          rw [subFuel_succ_none htm, subFuel_succ_none htm]
          have hr1 : rest.length ≤ n := by simpa using h1
          have hr2 : rest.length ≤ m0 := by simpa using h2
          rw [ih m0 (isWordByte b) rest hr1 hr2]
        | some p =>
          obtain ⟨m1, r⟩ := p
          obtain ⟨hlen, _⟩ := tryMatch_some_length htm
          rw [subFuel_succ_some htm, subFuel_succ_some htm]
          have hlc : (b :: rest).length = rest.length + 1 := rfl
          have hr1 : r.length ≤ n := by omega
          have hr2 : r.length ≤ m0 := by omega
          rw [ih m0 true r hr1 hr2]

theorem subRun_nil (pw : Bool) : subRun pw [] = [] := rfl

theorem subRun_cons_none {pw : Bool} {b : Nat} {rest : List Nat}
    (h : tryMatch pw (b :: rest) = none) :
    subRun pw (b :: rest) = b :: subRun (isWordByte b) rest := by
  unfold subRun
  rw [show ((b :: rest).length) = rest.length + 1 from rfl, subFuel_succ_none h]

theorem subRun_some {pw : Bool} {l m r : List Nat} (h : tryMatch pw l = some (m, r)) :
    subRun pw l = clamp_terminfo_number m ++ subRun true r := by
  cases l with
  | nil => rw [tryMatch_nil] at h; simp at h
  | cons b rest =>
    obtain ⟨hlen, _⟩ := tryMatch_some_length h
    unfold subRun
    rw [show ((b :: rest).length) = rest.length + 1 from rfl, subFuel_succ_some h]
    have hlc : (b :: rest).length = rest.length + 1 := rfl
    have hr1 : r.length ≤ rest.length := by omega
    rw [subFuel_congr rest.length r.length true r hr1 (Nat.le_refl _)]

theorem subRun_true_cons (c : Nat) (r2 : List Nat) :
    subRun true (c :: r2) = c :: subRun (isWordByte c) r2 :=
  subRun_cons_none (tryMatch_true _)

theorem subRun_true_head (r : List Nat) : (subRun true r).head? = r.head? := by
  cases r with
  | nil => rfl
  | cons c r2 => rw [subRun_true_cons]; rfl

theorem patch_shorts_eq_subRun (x : List Nat) : patch_shorts x = subRun false x := rfl

/-! Fuel irrelevance and unfolding equations for the goodness scan. -/

theorem goodScanF_nil (n : Nat) (pw : Bool) : goodScanF n pw [] = true := by
  cases n with
  | zero => rfl
  | succ n => simp [goodScanF, tryMatch_nil]

theorem goodScanF_succ_none {n : Nat} {pw : Bool} {b : Nat} {rest : List Nat}
    (h : tryMatch pw (b :: rest) = none) :
    goodScanF (n + 1) pw (b :: rest) = goodScanF n (isWordByte b) rest := by
  simp [goodScanF, h]

theorem goodScanF_succ_some {n : Nat} {pw : Bool} {l m r : List Nat}
    (h : tryMatch pw l = some (m, r)) :
    goodScanF (n + 1) pw l = (headFails isDigitByte r && goodScanF n true r) := by
  simp [goodScanF, h]

theorem goodScanF_congr : ∀ n m2 : Nat, ∀ pw : Bool, ∀ l : List Nat,
    l.length ≤ n → l.length ≤ m2 → goodScanF n pw l = goodScanF m2 pw l := by
  intro n
  induction n with
  | zero =>
    intro m2 pw l h1 h2
    have hl : l = [] := List.eq_nil_of_length_eq_zero (Nat.le_zero.mp h1)
    subst hl
    rw [goodScanF_nil, goodScanF_nil]
  | succ n ih =>
    intro m2 pw l h1 h2
    cases l with
    | nil => rw [goodScanF_nil, goodScanF_nil]
    | cons b rest =>
      cases m2 with
      | zero => simp at h2
      | succ m0 =>
        cases htm : tryMatch pw (b :: rest) with
        | none =>
          rw [goodScanF_succ_none htm, goodScanF_succ_none htm]
          have hr1 : rest.length ≤ n := by simpa using h1
          have hr2 : rest.length ≤ m0 := by simpa using h2
          rw [ih m0 (isWordByte b) rest hr1 hr2]
        | some p =>
          obtain ⟨m1, r⟩ := p
          obtain ⟨hlen, _⟩ := tryMatch_some_length htm
          rw [goodScanF_succ_some htm, goodScanF_succ_some htm]
          have hlc : (b :: rest).length = rest.length + 1 := rfl
          have hr1 : r.length ≤ n := by omega
          have hr2 : r.length ≤ m0 := by omega
          rw [ih m0 true r hr1 hr2]

theorem goodRun_cons_none {pw : Bool} {b : Nat} {rest : List Nat}
    (h : tryMatch pw (b :: rest) = none) :
    goodRun pw (b :: rest) = goodRun (isWordByte b) rest := by
  unfold goodRun
  rw [show ((b :: rest).length) = rest.length + 1 from rfl, goodScanF_succ_none h]

theorem goodRun_some {pw : Bool} {l m r : List Nat} (h : tryMatch pw l = some (m, r)) :
    goodRun pw l = (headFails isDigitByte r && goodRun true r) := by
  cases l with
  | nil => rw [tryMatch_nil] at h; simp at h
  | cons b rest =>
    obtain ⟨hlen, _⟩ := tryMatch_some_length h
    unfold goodRun
    rw [show ((b :: rest).length) = rest.length + 1 from rfl, goodScanF_succ_some h]
    have hlc : (b :: rest).length = rest.length + 1 := rfl
    have hr1 : r.length ≤ rest.length := by omega
    rw [goodScanF_congr rest.length r.length true r hr1 (Nat.le_refl _)]

/-! Relating the scan decomposition to the input and the output. -/

theorem scanF_nil (n : Nat) (pw : Bool) : scanF n pw [] = [] := by
  cases n with
  | zero => rfl
  | succ n => simp [scanF, tryMatch_nil]

theorem scanF_succ_none {n : Nat} {pw : Bool} {b : Nat} {rest : List Nat}
    (h : tryMatch pw (b :: rest) = none) :
    scanF (n + 1) pw (b :: rest) = Piece.raw b :: scanF n (isWordByte b) rest := by
  simp [scanF, h]

theorem scanF_succ_some {n : Nat} {pw : Bool} {l m r : List Nat}
    (h : tryMatch pw l = some (m, r)) :
    scanF (n + 1) pw l = Piece.hit m :: scanF n true r := by
  simp [scanF, h]

theorem flatten_map_singleton (l : List Nat) :
    (l.map (fun b => ([b] : List Nat))).flatten = l := by
  induction l with
  | nil => rfl
  | cons a l ih => simp [ih]

theorem scanF_orig (n : Nat) : ∀ pw : Bool, ∀ l : List Nat,
    ((scanF n pw l).map pieceOrig).flatten = l := by
  induction n with
  | zero =>
    intro pw l
    have h0 : (scanF 0 pw l).map pieceOrig = l.map (fun b => ([b] : List Nat)) := by
      simp [scanF, pieceOrig, Function.comp]
    rw [h0, flatten_map_singleton]
  | succ n ih =>
    intro pw l
    cases htm : tryMatch pw l with
    | none =>
      cases l with
      | nil => rw [scanF_nil]; rfl
      | cons b rest =>
        rw [scanF_succ_none htm]
        simp only [List.map_cons, List.flatten_cons, pieceOrig]
        rw [ih]
        rfl
    | some p =>
      obtain ⟨m, r⟩ := p
      obtain ⟨_, happ⟩ := tryMatch_some_length htm
      rw [scanF_succ_some htm]
      simp only [List.map_cons, List.flatten_cons, pieceOrig]
      rw [ih]
      exact happ.symm

theorem subFuel_eq_scan (n : Nat) : ∀ pw : Bool, ∀ l : List Nat,
    subFuel n pw l = ((scanF n pw l).map pieceOut).flatten := by
  induction n with
  | zero =>
    intro pw l
    have h0 : (scanF 0 pw l).map pieceOut = l.map (fun b => ([b] : List Nat)) := by
      simp [scanF, pieceOut, Function.comp]
    rw [h0, flatten_map_singleton]
    rfl
  | succ n ih =>
    intro pw l
    cases htm : tryMatch pw l with
    | none =>
      cases l with
      | nil => rw [scanF_nil, subFuel_nil]; rfl
      | cons b rest =>
        rw [subFuel_succ_none htm, scanF_succ_none htm]
        simp only [List.map_cons, List.flatten_cons, pieceOut]
        rw [ih]
        rfl
    | some p =>
      obtain ⟨m, r⟩ := p
      rw [subFuel_succ_some htm, scanF_succ_some htm]
      simp only [List.map_cons, List.flatten_cons, pieceOut]
      rw [ih]

theorem scanF_hit_mem (n : Nat) : ∀ pw : Bool, ∀ l m : List Nat,
    Piece.hit m ∈ scanF n pw l → ∃ pw2 : Bool, ∃ l2 r : List Nat,
      tryMatch pw2 l2 = some (m, r) := by
  induction n with
  | zero =>
    intro pw l m hm
    simp only [scanF, List.mem_map] at hm
    obtain ⟨b, _, hb⟩ := hm
    simp at hb
  | succ n ih =>
    intro pw l m hm
    cases htm : tryMatch pw l with
    | none =>
      cases l with
      | nil => rw [scanF_nil] at hm; simp at hm
      | cons b rest =>
        rw [scanF_succ_none htm] at hm
        rcases List.mem_cons.mp hm with h1 | h1
        · simp at h1
        · exact ih _ _ _ h1
    | some p =>
      obtain ⟨m1, r⟩ := p
      rw [scanF_succ_some htm] at hm
      rcases List.mem_cons.mp hm with h1 | h1
      · have hmm : m = m1 := by simpa using h1
        subst hmm
        exact ⟨pw, l, r, htm⟩
      · exact ih _ _ _ h1

/-! Preservation of match failure under the substitution, and idempotence on
inputs whose matches are not followed by digits. -/

theorem matchInt_none_head {h0 : Nat} {t : List Nat} (h1 : ¬((h0 == 48) = true))
    (h2 : ¬(isPosDigitByte h0 = true)) : matchInt (h0 :: t) = none := by
  simp only [matchInt]
  rw [if_neg h1, if_neg h2]

theorem matchInt_none_preserved {rest6 : List Nat} (h : matchInt rest6 = none) :
    matchInt (subRun false rest6) = none := by
  cases rest6 with
  | nil => rw [subRun_nil]; rfl
  | cons h0 r7 =>
    cases htm : tryMatch false (h0 :: r7) with
    | some p =>
      obtain ⟨m, r⟩ := p
      rw [subRun_some htm]
      obtain ⟨t2, hclh⟩ := clamp_head htm
      rw [hclh, List.cons_append]
      exact matchInt_none_head (by decide) (by decide)
    | none =>
      rw [subRun_cons_none htm]
      by_cases hb : h0 = 48
      · subst hb
        rw [show isWordByte 48 = true from rfl]
        cases r7 with
        | nil => rw [subRun_nil]; rfl
        | cons y r8 =>
          rw [subRun_true_cons]
          by_cases hy : (y == 120 || y == 88) = true
          · have hem : (r8.takeWhile isHexByte).isEmpty = true := by
              by_contra hem
              simp only [matchInt, beq_self_eq_true, if_true] at h
              rw [if_pos hy, if_neg hem] at h
              simp at h
            have hwy : isWordByte y = true := by
              rcases (by simpa using hy : y = 120 ∨ y = 88) with h1 | h1 <;>
                subst h1 <;> decide
            rw [hwy]
            simp only [matchInt, beq_self_eq_true, if_true]
            rw [if_pos hy]
            have hemm : ((subRun true r8).takeWhile isHexByte).isEmpty = true := by
              cases r8 with
              | nil => rw [subRun_nil]; rfl
              | cons z r9 =>
                have hz : ¬(isHexByte z = true) := by
                  intro hz3
                  rw [List.takeWhile_cons, if_pos hz3] at hem
                  simp at hem
                rw [subRun_true_cons, List.takeWhile_cons, if_neg hz]
                rfl
            rw [if_pos hemm]
          · have hoc : ¬(isOctByte y = true) := by
              intro hoc
              simp only [matchInt, beq_self_eq_true, if_true] at h
              rw [if_neg hy, if_pos hoc] at h
              simp at h
            simp only [matchInt, beq_self_eq_true, if_true]
            rw [if_neg hy, if_neg hoc]
      · have hb2 : ¬((h0 == 48) = true) := by simpa using hb
        have hpd : ¬(isPosDigitByte h0 = true) := by
          intro hpd
          simp only [matchInt] at h
          rw [if_neg hb2, if_pos hpd] at h
          simp at h
        exact matchInt_none_head hb2 hpd

theorem subRun_true_cons_inv {rest : List Nat} {c : Nat} {t : List Nat}
    (h : subRun true rest = c :: t) :
    ∃ r1, rest = c :: r1 ∧ t = subRun (isWordByte c) r1 := by
  cases rest with
  | nil => rw [subRun_nil] at h; simp at h
  | cons c0 r1 =>
    rw [subRun_true_cons] at h
    simp only [List.cons.injEq] at h
    obtain ⟨h1, h2⟩ := h
    subst h1
    exact ⟨r1, rfl, h2.symm⟩

theorem tryMatch_pairs_none {rest6 : List Nat}
    (h : tryMatch false (PAIRS_HASH ++ rest6) = none) : matchInt rest6 = none := by
  cases hmi : matchInt rest6 with
  | none => rfl
  | some p =>
    obtain ⟨ds, r⟩ := p
    obtain ⟨happ, hshape⟩ := matchInt_some_shape hmi
    rw [happ, show PAIRS_HASH ++ (ds ++ r) = PAIRS_HASH ++ ds ++ r by simp,
      tryMatch_intro hshape] at h
    simp at h

theorem tryMatch_none_preserved {pw : Bool} {b : Nat} {rest : List Nat}
    (h : tryMatch pw (b :: rest) = none) :
    tryMatch pw (b :: subRun (isWordByte b) rest) = none := by
  cases pw with
  | true => exact tryMatch_true _
  | false =>
    cases hs : tryMatch false (b :: subRun (isWordByte b) rest) with
    | none => rfl
    | some p =>
      obtain ⟨m, r⟩ := p
      exfalso
      obtain ⟨_, ds, hm, hl, hshape⟩ := tryMatch_some_elim hs
      rw [show PAIRS_HASH ++ ds ++ r = 112 :: (97 :: 105 :: 114 :: 115 :: 35 :: (ds ++ r))
        from by simp [PAIRS_HASH]] at hl
      simp only [List.cons.injEq] at hl
      obtain ⟨hb, htail⟩ := hl
      subst hb
      rw [show isWordByte 112 = true from rfl] at htail
      obtain ⟨r1, he1, ht1⟩ := subRun_true_cons_inv htail
      rw [show isWordByte 97 = true from rfl] at ht1
      obtain ⟨r2, he2, ht2⟩ := subRun_true_cons_inv ht1.symm
      rw [show isWordByte 105 = true from rfl] at ht2
      obtain ⟨r3, he3, ht3⟩ := subRun_true_cons_inv ht2.symm
      rw [show isWordByte 114 = true from rfl] at ht3
      obtain ⟨r4, he4, ht4⟩ := subRun_true_cons_inv ht3.symm
      rw [show isWordByte 115 = true from rfl] at ht4
      obtain ⟨r5, he5, ht5⟩ := subRun_true_cons_inv ht4.symm
      rw [show isWordByte 35 = false from rfl] at ht5
      subst he5
      subst he4
      subst he3
      subst he2
      subst he1
      have hpairs : tryMatch false ((112 : Nat) :: 97 :: 105 :: 114 :: 115 :: 35 :: r5) =
          tryMatch false (PAIRS_HASH ++ r5) := rfl
      rw [hpairs] at h
      have hmi5 : matchInt r5 = none := tryMatch_pairs_none h
      have hmi6 : matchInt (subRun false r5) = none := matchInt_none_preserved hmi5
      rw [← ht5, litShape_matchInt hshape] at hmi6
      simp at hmi6

theorem subRun_idem : ∀ n : Nat, ∀ l : List Nat, ∀ pw : Bool, l.length ≤ n →
    goodRun pw l = true → subRun pw (subRun pw l) = subRun pw l := by
  intro n
  induction n with
  | zero =>
    intro l pw h1 _
    have hl : l = [] := List.eq_nil_of_length_eq_zero (Nat.le_zero.mp h1)
    subst hl
    simp [subRun_nil]
  | succ n ih =>
    intro l pw hlen hgood
    cases htm : tryMatch pw l with
    | none =>
      cases l with
      | nil => simp [subRun_nil]
      | cons b rest =>
        rw [subRun_cons_none htm]
        have htm2 := tryMatch_none_preserved htm
        rw [subRun_cons_none htm2]
        have hg : goodRun (isWordByte b) rest = true := by
          rw [goodRun_cons_none htm] at hgood
          exact hgood
        have hlen2 : rest.length ≤ n := by simpa using hlen
        rw [ih rest (isWordByte b) hlen2 hg]
    | some p =>
      obtain ⟨m, r⟩ := p
      obtain ⟨hlen7, happ⟩ := tryMatch_some_length htm
      have hlenl : l.length ≤ n + 1 := hlen
      have hlen2 : r.length ≤ n := by omega
      have hgr : headFails isDigitByte r = true ∧ goodRun true r = true := by
        rw [goodRun_some htm] at hgood
        simpa using hgood
      have hpw : pw = false := (tryMatch_some_elim htm).1
      subst hpw
      rw [subRun_some htm]
      obtain ⟨ds, v, hm, hshape, hv, hcl⟩ := clamp_match_char htm
      have hheadeq : (subRun true r).head? = r.head? := subRun_true_head r
      by_cases hover : 32767 < v
      · rw [hcl, if_pos hover]
        have hf : headFails isDigitByte (subRun true r) = true := by
          rw [headFails_congr hheadeq]
          exact hgr.1
        have hshape2 : litShape DIGITS_32767 (subRun true r) = true := by
          rw [show (DIGITS_32767 : List Nat) = 51 :: [50, 55, 54, 55] from rfl,
            litShape_cons_ne48 (by decide)]
          simp only [Bool.and_eq_true]
          exact ⟨⟨by decide, by decide⟩, hf⟩
        have hmm : tryMatch false (PAIRS_CLAMPED ++ subRun true r) =
            some (PAIRS_CLAMPED, subRun true r) := tryMatch_intro hshape2
        rw [subRun_some hmm]
        have hclc : clamp_terminfo_number PAIRS_CLAMPED = PAIRS_CLAMPED := by decide
        rw [hclc, ih r true hlen2 hgr.2]
      · rw [hcl, if_neg hover]
        have hshape2 : litShape ds (subRun true r) = true := by
          rw [litShape_head_congr hheadeq]
          exact hshape
        have hmm : tryMatch false (m ++ subRun true r) = some (m, subRun true r) := by
          rw [hm]
          exact tryMatch_intro hshape2
        rw [subRun_some hmm, hcl, if_neg hover, ih r true hlen2 hgr.2]

/-! Properties of the tuple ordering used for version keys. -/

theorem tupLt_irrefl (k : List Int) : tupLt k k = false := by
  induction k with
  | nil => rfl
  | cons a as ih => simp [tupLt, ih]

theorem tupLt_spec : ∀ a b : List Int, a.length = b.length →
    (tupLt a b = true ↔ specLexLt a b) := by
  intro a
  induction a with
  | nil =>
    intro b hlen
    have hb : b = [] := by
      cases b with
      | nil => rfl
      | cons y ys => simp at hlen
    subst hb
    constructor
    · intro h
      simp [tupLt] at h
    · rintro ⟨i, v, w, _, hv, _⟩
      simp at hv
  | cons x xs ih =>
    intro b hlen
    cases b with
    | nil => simp at hlen
    | cons y ys =>
      have hlen2 : xs.length = ys.length := by simpa using hlen
      constructor
      · intro h
        simp only [tupLt, Bool.or_eq_true, Bool.and_eq_true, decide_eq_true_eq,
          beq_iff_eq] at h
        rcases h with h | ⟨hxy, h⟩
        · exact ⟨0, x, y, by simp, by simp, by simp, h⟩
        · obtain ⟨i, v, w, ht, hv, hw, hvw⟩ := (ih ys hlen2).mp h
          subst hxy
          exact ⟨i + 1, v, w, by simpa using ht, by simpa using hv, by simpa using hw, hvw⟩
      · rintro ⟨i, v, w, ht, hv, hw, hvw⟩
        simp only [tupLt, Bool.or_eq_true, Bool.and_eq_true, decide_eq_true_eq,
          beq_iff_eq]
        cases i with
        | zero =>
          simp only [List.getElem?_cons_zero, Option.some.injEq] at hv hw
          subst hv
          subst hw
          exact Or.inl hvw
        | succ j =>
          have hx : x = y ∧ xs.take j = ys.take j := by simpa using ht
          exact Or.inr ⟨hx.1, (ih ys hlen2).mpr
            ⟨j, v, w, hx.2, by simpa using hv, by simpa using hw, hvw⟩⟩

/-! Behaviour of one selection step and of the whole selector. -/

theorem selStep_skip_probe {env : DiscEnv} {best : Option (List Nat × List Int)}
    {exe : List Nat} (h : env.probe exe = none) :
    selStep env best exe = Except.ok best := by
  simp [selStep, h]

theorem selStep_skip_tag {env : DiscEnv} {best : Option (List Nat × List Int)}
    {exe out : List Nat} (h : env.probe exe = some out)
    (h2 : NCURSES_VERSION_TAG.isPrefixOf (pyRstrip out) = false) :
    selStep env best exe = Except.ok best := by
  simp only [selStep, h]
  rw [if_neg (by simp [h2])]

theorem selStep_value_error {env : DiscEnv} {best : Option (List Nat × List Int)}
    {exe out : List Nat} (h : env.probe exe = some out)
    (h2 : NCURSES_VERSION_TAG.isPrefixOf (pyRstrip out) = true)
    (h3 : parseVersionKey ((pyRstrip out).drop NCURSES_VERSION_TAG.length) = none) :
    selStep env best exe = Except.error () := by
  simp [selStep, h, h2, h3]

theorem selStep_viable_first {env : DiscEnv} {exe out : List Nat} {k : List Int}
    (h : env.probe exe = some out)
    (h2 : NCURSES_VERSION_TAG.isPrefixOf (pyRstrip out) = true)
    (h3 : parseVersionKey ((pyRstrip out).drop NCURSES_VERSION_TAG.length) = some k) :
    selStep env none exe = Except.ok (some (exe, k)) := by
  simp [selStep, h, h2, h3]

theorem selStep_keep {env : DiscEnv} {best_exe exe out : List Nat} {bk k : List Int}
    (h : env.probe exe = some out)
    (h2 : NCURSES_VERSION_TAG.isPrefixOf (pyRstrip out) = true)
    (h3 : parseVersionKey ((pyRstrip out).drop NCURSES_VERSION_TAG.length) = some k)
    (h4 : tupLt bk k = false) :
    selStep env (some (best_exe, bk)) exe = Except.ok (some (best_exe, bk)) := by
  simp [selStep, h, h2, h3, h4]

theorem selStep_upgrade {env : DiscEnv} {best_exe exe out : List Nat} {bk k : List Int}
    (h : env.probe exe = some out)
    (h2 : NCURSES_VERSION_TAG.isPrefixOf (pyRstrip out) = true)
    (h3 : parseVersionKey ((pyRstrip out).drop NCURSES_VERSION_TAG.length) = some k)
    (h4 : tupLt bk k = true) :
    selStep env (some (best_exe, bk)) exe = Except.ok (some (exe, k)) := by
  simp [selStep, h, h2, h3, h4]

theorem find_two_tie {env : DiscEnv} {p1 p2 v : List Nat} {k : List Int}
    (hm : env.macports_files = [p1, p2]) (hh : env.homebrew_files = [])
    (s1 : INFOCMP_SUFFIX.isSuffixOf p1 = true) (s2 : INFOCMP_SUFFIX.isSuffixOf p2 = true)
    (hp1 : env.probe p1 = some v) (hp2 : env.probe p2 = some v)
    (ht : NCURSES_VERSION_TAG.isPrefixOf (pyRstrip v) = true)
    (hk : parseVersionKey ((pyRstrip v).drop NCURSES_VERSION_TAG.length) = some k) :
    find_infocmp env = Except.ok (some p1) := by
  have hc : candidatesOf env = [p1, p2] := by
    unfold candidatesOf
    rw [hm, hh]
    simp [List.filter, s1, s2]
  unfold find_infocmp
  rw [hc]
  have e1 : selStep env none p1 = Except.ok (some (p1, k)) := selStep_viable_first hp1 ht hk
  have e2 : selStep env (some (p1, k)) p2 = Except.ok (some (p1, k)) :=
    selStep_keep hp2 ht hk (tupLt_irrefl k)
  simp [List.foldlM, e1, e2, Except.map, Bind.bind, Except.bind, pure, Except.pure]

theorem candidatesOf_fallback {env : DiscEnv}
    (h : ((env.macports_files ++ env.homebrew_files).filter
      (fun file => INFOCMP_SUFFIX.isSuffixOf file)) = []) :
    candidatesOf env = [INFOCMP_FALLBACK] := by
  unfold candidatesOf
  rw [h]
  rfl

theorem find_fallback_absent {env : DiscEnv}
    (h : ((env.macports_files ++ env.homebrew_files).filter
      (fun file => INFOCMP_SUFFIX.isSuffixOf file)) = [])
    (h2 : env.probe INFOCMP_FALLBACK = none) :
    find_infocmp env = Except.ok none := by
  unfold find_infocmp
  rw [candidatesOf_fallback h]
  simp [List.foldlM, selStep_skip_probe h2, Except.map, Bind.bind, Except.bind, pure,
    Except.pure]

/-! Behaviour of the orchestrator. -/

theorem dir_in_path_none (d : List Nat) : dir_in_path d none = false := rfl

theorem main_bad_tic {env : MainEnv}
    (h : pyRstrip env.tic_probe ≠ NCURSES_STOCK_EXPECTED_VERSION) :
    main env = Except.ok (1, []) := by
  simp only [main]
  rw [if_pos h]

theorem main_advisory {env : MainEnv} {exe : List Nat}
    (h1 : pyRstrip env.tic_probe = NCURSES_STOCK_EXPECTED_VERSION)
    (h2 : find_infocmp env.disc = Except.ok (some exe))
    (h3 : env.terminfo_dirs = none) :
    main env =
      Except.ok (0, [Ev.exportStep, Ev.patchStep, Ev.compileStep, Ev.advisoryStep]) := by
  simp only [main]
  rw [if_neg (by simp [h1])]
  simp [h2, h3, dir_in_path]

/-! Claim theorems.  Byte strings appear as explicit byte lists; for example
`[99, 111, 108, 111, 114, 115, 35, 50, 53, 54, 44, 10, 9]` is `colors#256,`
followed by a line feed and a tab. -/

/-- C1: for a synthetic terminfo source containing the assignment `pairs#0x10000`
(hexadecimal 65536), the patched output contains `pairs#32767` with every byte
outside that assignment unchanged, and for a source containing `pairs#100`
(value at most 32767) the output is byte-identical to the input. -/
theorem claim_C1_clamp_correct :
    patch_shorts ([99, 111, 108, 111, 114, 115, 35, 50, 53, 54, 44, 10, 9] ++
        PAIRS_HASH ++ [48, 120, 49, 48, 48, 48, 48] ++ [44, 10]) =
      [99, 111, 108, 111, 114, 115, 35, 50, 53, 54, 44, 10, 9] ++
        PAIRS_CLAMPED ++ [44, 10] ∧
    patch_shorts ([99, 111, 108, 111, 114, 115, 35, 50, 53, 54, 44, 10, 9] ++
        PAIRS_HASH ++ [49, 48, 48] ++ [44, 10]) =
      [99, 111, 108, 111, 114, 115, 35, 50, 53, 54, 44, 10, 9] ++
        PAIRS_HASH ++ [49, 48, 48] ++ [44, 10] :=
  ⟨by decide, by decide⟩

/-- C2 counterexample: `patch_shorts` is not idempotent on every byte string.
On `pairs#01000008` the first pass matches the octal literal `0100000`
(value 32768), rewrites it to `pairs#32767`, and leaves the following byte `8`
in place, so the output `pairs#327678` matches again on the second pass and is
rewritten once more. -/
theorem claim_C2_counterexample :
    patch_shorts (patch_shorts (PAIRS_HASH ++ [48, 49, 48, 48, 48, 48, 48, 56])) ≠
      patch_shorts (PAIRS_HASH ++ [48, 49, 48, 48, 48, 48, 48, 56]) := by
  decide

/-- C2 amended: `patch_shorts` is idempotent on every input in which no match of
the numeric-capability pattern is immediately followed by a decimal digit byte
(the condition `goodInput`); every terminfo source in which assignments are
followed by a separator satisfies it. -/
theorem claim_C2_amended (x : List Nat) (h : goodInput x = true) :
    patch_shorts (patch_shorts x) = patch_shorts x :=
  subRun_idem x.length x false (Nat.le_refl _) h

/-- C2 witness: the amended idempotence applied to the concrete source
consisting of a tab, `pairs#70000` and a comma with a line feed. -/
theorem claim_C2_witness :
    goodInput ([9] ++ PAIRS_HASH ++ [55, 48, 48, 48, 48] ++ [44, 10]) = true ∧
    patch_shorts (patch_shorts ([9] ++ PAIRS_HASH ++ [55, 48, 48, 48, 48] ++ [44, 10])) =
      patch_shorts ([9] ++ PAIRS_HASH ++ [55, 48, 48, 48, 48] ++ [44, 10]) :=
  ⟨by decide, claim_C2_amended _ (by decide)⟩

/-- C3 counterexample: the patcher does not rewrite overflowing assignments of
arbitrary identifiers.  The source `colors#0x10000` (preceded by a tab and
followed by a comma) decodes to 65536, above the threshold, yet the output is
byte-identical to the input, because the pattern only matches the identifier
`pairs`. -/
theorem claim_C3_counterexample :
    patch_shorts [9, 99, 111, 108, 111, 114, 115, 35, 48, 120, 49, 48, 48, 48, 48, 44] =
      [9, 99, 111, 108, 111, 114, 115, 35, 48, 120, 49, 48, 48, 48, 48, 44] ∧
    terminfo_int_value [48, 120, 49, 48, 48, 48, 48] = some 65536 :=
  ⟨by decide, by decide⟩

/-- C3 amended: the patcher locates exactly the substrings `pairs#<literal>`
preceded by a word boundary — only the identifier `pairs`, not arbitrary
identifiers — where the literal is maximal and is hexadecimal (`0x`/`0X` and
hex digits), octal (`0` and at least one octal digit) or decimal with a nonzero
first digit (a lone `0` is not matched, which is unobservable in the output
since 0 is below the threshold); every located assignment decodes successfully
and is replaced by `pairs#32767` exactly when its value exceeds 32767. -/
theorem claim_C3_amended :
    (∀ pw : Bool, ∀ l m r : List Nat, tryMatch pw l = some (m, r) →
      pw = false ∧ ∃ lit, m = PAIRS_HASH ++ lit ∧ l = PAIRS_HASH ++ lit ++ r ∧
        litShape lit r = true) ∧
    (∀ lit t : List Nat, litShape lit t = true →
      tryMatch false (PAIRS_HASH ++ lit ++ t) = some (PAIRS_HASH ++ lit, t)) ∧
    (∀ pw : Bool, ∀ l m r : List Nat, tryMatch pw l = some (m, r) →
      ∃ lit v, m = PAIRS_HASH ++ lit ∧ terminfo_int_value lit = some v ∧
        clamp_terminfo_number m = (if 32767 < v then PAIRS_CLAMPED else m)) := by
  refine ⟨?_, ?_, ?_⟩
  · intro pw l m r h
    exact tryMatch_some_elim h
  · intro lit t h
    exact tryMatch_intro h
  · intro pw l m r h
    obtain ⟨ds, v, hm, _, hv, hcl⟩ := clamp_match_char h
    exact ⟨ds, v, hm, hv, hcl⟩

/-- C3 witness: the completeness direction applied to the literal `0x10000`
followed by a comma. -/
theorem claim_C3_witness :
    litShape [48, 120, 49, 48, 48, 48, 48] [44] = true ∧
    tryMatch false (PAIRS_HASH ++ [48, 120, 49, 48, 48, 48, 48] ++ [44]) =
      some (PAIRS_HASH ++ [48, 120, 49, 48, 48, 48, 48], [44]) :=
  ⟨by decide, claim_C3_amended.2.1 _ _ (by decide)⟩

/-- C4: the scan decomposes every input into unmatched bytes and matches, the
output is obtained from exactly that decomposition with every unmatched byte
emitted verbatim, and every match decodes successfully and keeps its original
bytes unless its value exceeds 32767, in which case it becomes `pairs#32767`;
in particular no renormalization of base or leading zeros ever occurs. -/
theorem claim_C4_frame (x : List Nat) :
    ((scanPieces x).map pieceOrig).flatten = x ∧
    patch_shorts x = ((scanPieces x).map pieceOut).flatten ∧
    (∀ m : List Nat, Piece.hit m ∈ scanPieces x → ∃ lit v, m = PAIRS_HASH ++ lit ∧
      terminfo_int_value lit = some v ∧
      clamp_terminfo_number m = (if 32767 < v then PAIRS_CLAMPED else m)) := by
  refine ⟨scanF_orig _ _ _, subFuel_eq_scan _ _ _, ?_⟩
  intro m hm
  obtain ⟨pw2, l2, r, htm⟩ := scanF_hit_mem _ _ _ _ hm
  obtain ⟨ds, v, hmm, _, hv, hcl⟩ := clamp_match_char htm
  exact ⟨ds, v, hmm, hv, hcl⟩

/-- C4 witness: the match `pairs#100` inside a tab-and-comma context is a piece
of the decomposition, decodes below the threshold, and keeps its bytes. -/
theorem claim_C4_witness :
    ∃ lit v, PAIRS_HASH ++ [49, 48, 48] = PAIRS_HASH ++ lit ∧
      terminfo_int_value lit = some v ∧
      clamp_terminfo_number (PAIRS_HASH ++ [49, 48, 48]) =
        (if 32767 < v then PAIRS_CLAMPED else PAIRS_HASH ++ [49, 48, 48]) :=
  (claim_C4_frame ([9] ++ PAIRS_HASH ++ [49, 48, 48] ++ [44])).2.2
    (PAIRS_HASH ++ [49, 48, 48]) (by decide)

/-- C5: whenever the stripped output of the stock tic version probe differs
from the expected literal `ncurses 5.7.20081102`, the orchestrator returns exit
code 1 with an empty step trace: the export, patch and compile steps are never
invoked. -/
theorem claim_C5_fail_fast (env : MainEnv)
    (h : pyRstrip env.tic_probe ≠ NCURSES_STOCK_EXPECTED_VERSION) :
    main env = Except.ok (1, []) :=
  main_bad_tic h

/-- C5 witness: a probe answering `ncurses 6.0` reaches the failed state with
exit code 1 and no steps. -/
theorem claim_C5_witness :
    pyRstrip (NCURSES_VERSION_TAG ++ [54, 46, 48]) ≠ NCURSES_STOCK_EXPECTED_VERSION ∧
    main ⟨NCURSES_VERSION_TAG ++ [54, 46, 48], ⟨[], [], fun _ => none⟩, [], [], none⟩ =
      Except.ok (1, []) :=
  ⟨by decide, claim_C5_fail_fast _ (by decide)⟩

/-- C6: on version keys of equal length, the tuple ordering used by the
selector agrees with comparing components as integers left to right; the keys
of `6.2` and `6.1.9` do not have equal length, so the equal-length rule makes
no claim about that pair; and between `6.2` and `5.9` the ordering selects
`6.2`. -/
theorem claim_C6_version_order :
    (∀ a b : List Int, a.length = b.length → (tupLt a b = true ↔ specLexLt a b)) ∧
    (parseVersionKey [54, 46, 50] = some [6, 2] ∧
      parseVersionKey [54, 46, 49, 46, 57] = some [6, 1, 9] ∧
      ([6, 2] : List Int).length ≠ ([6, 1, 9] : List Int).length) ∧
    (parseVersionKey [53, 46, 57] = some [5, 9] ∧ tupLt [5, 9] [6, 2] = true ∧
      tupLt [6, 2] [5, 9] = false) :=
  ⟨tupLt_spec, ⟨by decide, by decide, by decide⟩, by decide, by decide, by decide⟩

/-- C6 witness: the equal-length equivalence applied to the keys of `5.9` and
`6.2`. -/
theorem claim_C6_witness :
    ([5, 9] : List Int).length = ([6, 2] : List Int).length ∧
    (tupLt [5, 9] [6, 2] = true ↔ specLexLt [5, 9] [6, 2]) :=
  ⟨by decide, claim_C6_version_order.1 _ _ (by decide)⟩

/-- C7: a later candidate with a version key that is not strictly greater than
the current best leaves the best unchanged, so with two viable candidates of
identical keys the one probed first is retained by the whole selector. -/
theorem claim_C7_tie_break :
    (∀ env : DiscEnv, ∀ best_exe exe out : List Nat, ∀ bk k : List Int,
      env.probe exe = some out →
      NCURSES_VERSION_TAG.isPrefixOf (pyRstrip out) = true →
      parseVersionKey ((pyRstrip out).drop NCURSES_VERSION_TAG.length) = some k →
      tupLt bk k = false →
      selStep env (some (best_exe, bk)) exe = Except.ok (some (best_exe, bk))) ∧
    (∀ env : DiscEnv, ∀ p1 p2 v : List Nat, ∀ k : List Int,
      env.macports_files = [p1, p2] → env.homebrew_files = [] →
      INFOCMP_SUFFIX.isSuffixOf p1 = true → INFOCMP_SUFFIX.isSuffixOf p2 = true →
      env.probe p1 = some v → env.probe p2 = some v →
      NCURSES_VERSION_TAG.isPrefixOf (pyRstrip v) = true →
      parseVersionKey ((pyRstrip v).drop NCURSES_VERSION_TAG.length) = some k →
      find_infocmp env = Except.ok (some p1)) := by
  constructor
  · intro env best_exe exe out bk k h h2 h3 h4
    exact selStep_keep h h2 h3 h4
  · intro env p1 p2 v k hm hh s1 s2 hp1 hp2 ht hk
    exact find_two_tie hm hh s1 s2 hp1 hp2 ht hk

/-- C7 witness: two candidates both answering `ncurses 6.2`; the selector keeps
the first. -/
theorem claim_C7_witness :
    find_infocmp ⟨[[47, 97] ++ INFOCMP_SUFFIX, [47, 98] ++ INFOCMP_SUFFIX], [],
      fun _ => some (NCURSES_VERSION_TAG ++ [54, 46, 50])⟩ =
      Except.ok (some ([47, 97] ++ INFOCMP_SUFFIX)) :=
  claim_C7_tie_break.2 ⟨[[47, 97] ++ INFOCMP_SUFFIX, [47, 98] ++ INFOCMP_SUFFIX], [],
      fun _ => some (NCURSES_VERSION_TAG ++ [54, 46, 50])⟩
    ([47, 97] ++ INFOCMP_SUFFIX) ([47, 98] ++ INFOCMP_SUFFIX)
    (NCURSES_VERSION_TAG ++ [54, 46, 50]) [6, 2]
    rfl rfl (by decide) (by decide) rfl rfl (by decide) (by decide)

/-- C8: when every package-manager backend yields zero candidate paths, the
candidate list consists of exactly the one fallback name `infocmp`, and if the
probe of that single fallback fails the selector concludes absence. -/
theorem claim_C8_fallback (env : DiscEnv)
    (h : ((env.macports_files ++ env.homebrew_files).filter
      (fun file => INFOCMP_SUFFIX.isSuffixOf file)) = []) :
    candidatesOf env = [INFOCMP_FALLBACK] ∧
    (env.probe INFOCMP_FALLBACK = none → find_infocmp env = Except.ok none) :=
  ⟨candidatesOf_fallback h, fun h2 => find_fallback_absent h h2⟩

/-- C8 witness: with empty backends and a failing fallback probe, the candidate
list is the single fallback and the selector reports absence. -/
theorem claim_C8_witness :
    candidatesOf ⟨[], [], fun _ => none⟩ = [INFOCMP_FALLBACK] ∧
    find_infocmp ⟨[], [], fun _ => none⟩ = Except.ok none := by
  have h := claim_C8_fallback ⟨[], [], fun _ => none⟩ (by decide)
  exact ⟨h.1, h.2 rfl⟩

/-- C9 counterexample: a probed candidate whose output carries the `ncurses `
marker but whose version text `6.x` does not parse as a dotted numeric version
is not silently skipped: the selector terminates with an uncaught error (the
`ValueError` of the integer conversion is outside the caught exception classes)
instead of continuing with the remaining viable candidate. -/
theorem claim_C9_counterexample :
    find_infocmp ⟨[[47, 97] ++ INFOCMP_SUFFIX, [47, 98] ++ INFOCMP_SUFFIX], [],
      fun f => if f = [47, 97] ++ INFOCMP_SUFFIX then
          some (NCURSES_VERSION_TAG ++ [54, 46, 120, 10])
        else some (NCURSES_VERSION_TAG ++ [54, 46, 50])⟩ = Except.error () := rfl

/-- C9 amended: a candidate whose probe raises (launch or exit failure) is
silently skipped, a candidate whose output lacks the `ncurses ` marker is
silently skipped, but a candidate whose output carries the marker while the
remaining text fails integer parsing raises an uncaught error that terminates
the selector. -/
theorem claim_C9_amended (env : DiscEnv) (best : Option (List Nat × List Int))
    (exe : List Nat) :
    (env.probe exe = none → selStep env best exe = Except.ok best) ∧
    (∀ out : List Nat, env.probe exe = some out →
      NCURSES_VERSION_TAG.isPrefixOf (pyRstrip out) = false →
      selStep env best exe = Except.ok best) ∧
    (∀ out : List Nat, env.probe exe = some out →
      NCURSES_VERSION_TAG.isPrefixOf (pyRstrip out) = true →
      parseVersionKey ((pyRstrip out).drop NCURSES_VERSION_TAG.length) = none →
      selStep env best exe = Except.error ()) :=
  ⟨fun h => selStep_skip_probe h,
   fun _ h h2 => selStep_skip_tag h h2,
   fun _ h h2 h3 => selStep_value_error h h2 h3⟩

/-- C9 witness: one selection step on a probe answering `ncurses 6.x` raises
the modelled error. -/
theorem claim_C9_witness :
    selStep ⟨[], [], fun _ => some (NCURSES_VERSION_TAG ++ [54, 46, 120])⟩ none
      [105, 110, 102, 111, 99, 109, 112] = Except.error () :=
  (claim_C9_amended ⟨[], [], fun _ => some (NCURSES_VERSION_TAG ++ [54, 46, 120])⟩
      none [105, 110, 102, 111, 99, 109, 112]).2.2
    (NCURSES_VERSION_TAG ++ [54, 46, 120]) rfl (by decide) (by decide)

/-- C10: a missing terminfo search path variable is never a hit for the
visibility check, and on an otherwise successful run with the variable unset
the orchestrator still prints the advisory and terminates with exit code 0
after exporting, patching and compiling. -/
theorem claim_C10_unset_dirs :
    (∀ d : List Nat, dir_in_path d none = false) ∧
    (∀ env : MainEnv, ∀ exe : List Nat,
      env.terminfo_dirs = none →
      pyRstrip env.tic_probe = NCURSES_STOCK_EXPECTED_VERSION →
      find_infocmp env.disc = Except.ok (some exe) →
      main env =
        Except.ok (0, [Ev.exportStep, Ev.patchStep, Ev.compileStep, Ev.advisoryStep])) :=
  ⟨fun _ => rfl, fun _ _ h3 h1 h2 => main_advisory h1 h2 h3⟩

/-- C10 witness: a run with the expected tic version, a viable fallback
decompiler and no `TERMINFO_DIRS` ends in exit code 0 with the advisory step. -/
theorem claim_C10_witness :
    main ⟨NCURSES_STOCK_EXPECTED_VERSION,
      ⟨[], [], fun _ => some (NCURSES_VERSION_TAG ++ [54, 46, 50])⟩,
      [], [47, 116], none⟩ =
      Except.ok (0, [Ev.exportStep, Ev.patchStep, Ev.compileStep, Ev.advisoryStep]) :=
  claim_C10_unset_dirs.2 _ [105, 110, 102, 111, 99, 109, 112] rfl (by decide) rfl

end TerminfoBackport
